import Mathlib

/-!
Shallow embedding of the bespoke logic of the Resumate job-search app
(`src/index.tsx`): the job-search prompt builder, the fenced-JSON job
result parsing, the find-more merge, the saved-jobs toggle and the
like/dislike feedback map.  JavaScript objects/`Map`s are modelled as
association lists with insertion-order-preserving update, and the
locale-aware Indian-Rupee number rendering is modelled for natural
numbers (the salary inputs are numeric form fields).
-/

namespace Resumate

/-- Reaction stored in the in-memory feedback map (like or dislike). -/
inductive Reaction where
  | like
  | dislike
deriving DecidableEq, Repr

/-- Job record as returned by the model and stored in state (`interface Job`). -/
structure Job where
  title : String
  company : String
  description : String
  location : String
  applyLink : String
  datePosted : Option String
  sourceUrl : Option String
deriving DecidableEq, Repr

/-- One skill entry of the resume analysis (`interface Skill`). -/
structure Skill where
  skillName : String
  prevalence : Int
deriving DecidableEq, Repr

/-- Resume analysis result (`interface AnalysisResult`). -/
structure AnalysisResult where
  summary : String
  skills : List Skill
  role : String
  atsScore : Int
  improvementSuggestions : String
  experienceLevel : String
deriving DecidableEq, Repr

/-- Job-alert frequency of the user profile (daily or weekly). -/
inductive AlertFrequency where
  | daily
  | weekly
deriving DecidableEq, Repr

/-- User career profile (`interface UserProfile`). -/
structure UserProfile where
  preferredTitles : String
  minSalary : String
  maxSalary : String
  careerGoals : String
  locationPreference : String
  jobAlertsEnabled : Bool
  jobAlertsFrequency : AlertFrequency
deriving DecidableEq, Repr

/-- The all-empty default profile (`defaultUserProfile`). -/
def defaultUserProfile : UserProfile :=
  UserProfile.mk "" "" "" "" "" false AlertFrequency.weekly

/-! JavaScript object / `Map` model: association lists with string keys,
updated in place (existing key keeps its position, a new key is appended),
which is exactly the insertion-order behaviour of JS objects and `Map`s. -/

/-- Lookup of a key in an association list (JS property read). -/
def mapGet {α : Type} (m : List (String × α)) (k : String) : Option α :=
  match m with
  | [] => none
  | (k', v) :: rest => if k' = k then some v else mapGet rest k

/-- Insertion-order-preserving update (JS property write / `Map.set`):
replaces the first binding of the key in place, or appends a new binding. -/
def mapSet {α : Type} (m : List (String × α)) (k : String) (v : α) :
    List (String × α) :=
  match m with
  | [] => [(k, v)]
  | (k', v') :: rest =>
    if k' = k then (k, v) :: rest else (k', v') :: mapSet rest k v

/-- Deletion of a key (JS `delete obj[k]`): removes the first binding. -/
def mapDel {α : Type} (m : List (String × α)) (k : String) :
    List (String × α) :=
  match m with
  | [] => []
  | (k', v') :: rest =>
    if k' = k then rest else (k', v') :: mapDel rest k

theorem mapGet_mapSet_self {α : Type} (m : List (String × α)) (k : String) (v : α) :
    mapGet (mapSet m k v) k = some v := by
  induction m with
  | nil => simp [mapSet, mapGet]
  | cons hd tl ih =>
    obtain ⟨k', v'⟩ := hd
    by_cases h : k' = k
    · simp [mapSet, mapGet, h]
    · simp [mapSet, mapGet, h, ih]

theorem mapGet_mapSet_ne {α : Type} (m : List (String × α)) (k k' : String) (v : α)
    (h : k' ≠ k) : mapGet (mapSet m k v) k' = mapGet m k' := by
  have h2 : k ≠ k' := Ne.symm h
  induction m with
  | nil => simp [mapSet, mapGet, h2]
  | cons hd tl ih =>
    obtain ⟨k0, v0⟩ := hd
    by_cases h0 : k0 = k
    · subst h0
      simp [mapSet, mapGet, h2]
    · by_cases h1 : k0 = k'
      · simp [mapSet, mapGet, h0, h1, h2, h]
      · simp [mapSet, mapGet, h0, h1, ih]

theorem mapGet_mapDel_ne {α : Type} (m : List (String × α)) (k k' : String)
    (h : k' ≠ k) : mapGet (mapDel m k) k' = mapGet m k' := by
  have h2 : k ≠ k' := Ne.symm h
  induction m with
  | nil => simp [mapDel]
  | cons hd tl ih =>
    obtain ⟨k0, v0⟩ := hd
    by_cases h0 : k0 = k
    · subst h0
      simp [mapDel, mapGet, h2]
    · by_cases h1 : k0 = k'
      · simp [mapDel, mapGet, h0, h1, h]
      · simp [mapDel, mapGet, h0, h1, ih]

theorem mapGet_eq_none_of_not_mem_keys {α : Type} (m : List (String × α)) (k : String)
    (h : k ∉ m.map Prod.fst) : mapGet m k = none := by
  induction m with
  | nil => rfl
  | cons hd tl ih =>
    obtain ⟨k0, v0⟩ := hd
    simp only [List.map_cons, List.mem_cons] at h
    push_neg at h
    have h0 : k0 ≠ k := Ne.symm h.1
    simp [mapGet, h0]
    exact ih h.2

/-- With duplicate-free keys, deleting a key really clears it. -/
theorem mapGet_mapDel_self {α : Type} (m : List (String × α)) (k : String)
    (hnd : (m.map Prod.fst).Nodup) : mapGet (mapDel m k) k = none := by
  induction m with
  | nil => simp [mapDel, mapGet]
  | cons hd tl ih =>
    obtain ⟨k0, v0⟩ := hd
    simp only [List.map_cons, List.nodup_cons] at hnd
    by_cases h0 : k0 = k
    · subst h0
      simp only [mapDel, if_pos rfl]
      exact mapGet_eq_none_of_not_mem_keys tl k0 hnd.1
    · simp [mapDel, mapGet, h0]
      exact ih hnd.2

theorem keys_mapSet_sub {α : Type} (m : List (String × α)) (k : String) (v : α) :
    ((mapSet m k v).map Prod.fst) ⊆ k :: m.map Prod.fst := by
  induction m with
  | nil => simp [mapSet]
  | cons hd tl ih =>
    obtain ⟨k0, v0⟩ := hd
    by_cases h0 : k0 = k
    · subst h0
      simp [mapSet]
    · simp only [mapSet, if_neg h0, List.map_cons]
      intro x hx
      rcases List.mem_cons.1 hx with h | h
      · simp [h]
      · rcases List.mem_cons.1 (ih h) with h | h
        · simp [h]
        · simp [h]

theorem keys_mapSet_nodup {α : Type} (m : List (String × α)) (k : String) (v : α)
    (hnd : (m.map Prod.fst).Nodup) : ((mapSet m k v).map Prod.fst).Nodup := by
  induction m with
  | nil => simp [mapSet]
  | cons hd tl ih =>
    obtain ⟨k0, v0⟩ := hd
    simp only [List.map_cons, List.nodup_cons] at hnd
    by_cases h0 : k0 = k
    · subst h0
      have hset : mapSet ((k0, v0) :: tl) k0 v = (k0, v) :: tl := by simp [mapSet]
      rw [hset]
      simp only [List.map_cons, List.nodup_cons]
      exact hnd
    · simp only [mapSet, if_neg h0, List.map_cons, List.nodup_cons]
      refine ⟨fun hmem => ?_, ih hnd.2⟩
      rcases List.mem_cons.1 (keys_mapSet_sub tl k v hmem) with h | h
      · exact h0 h
      · exact hnd.1 h

theorem keys_mapDel_sub {α : Type} (m : List (String × α)) (k : String) :
    ((mapDel m k).map Prod.fst) ⊆ m.map Prod.fst := by
  induction m with
  | nil => simp [mapDel]
  | cons hd tl ih =>
    obtain ⟨k1, v1⟩ := hd
    by_cases h1 : k1 = k
    · simp only [mapDel, if_pos h1, List.map_cons]
      exact List.subset_cons_of_subset _ (List.Subset.refl _)
    · simp only [mapDel, if_neg h1, List.map_cons]
      exact List.cons_subset_cons _ ih

theorem keys_mapDel_nodup {α : Type} (m : List (String × α)) (k : String)
    (hnd : (m.map Prod.fst).Nodup) : ((mapDel m k).map Prod.fst).Nodup := by
  induction m with
  | nil => simp [mapDel]
  | cons hd tl ih =>
    obtain ⟨k0, v0⟩ := hd
    simp only [List.map_cons, List.nodup_cons] at hnd
    by_cases h0 : k0 = k
    · simpa [mapDel, h0] using hnd.2
    · simp only [mapDel, if_neg h0, List.map_cons, List.nodup_cons]
      exact ⟨fun hmem => hnd.1 (keys_mapDel_sub tl k hmem), ih hnd.2⟩

/-! Fenced-JSON extraction.  Both `handleFindJobs` and `handleFindMoreJobs`
run `text.match(/` followed by the json fence opener, a lazy any-character
capture, and the closing fence `/)` and then test `!m || !m[1]`.  The regex
is modelled on the character list: the engine tries every start position
from the left; at a position where the opener matches, the lazy capture is
the shortest run of characters followed by the closing fence. -/

/-- Characters of the fence opener matched by the regex. -/
def openTok : List Char := "```json\n".data

/-- Characters of the closing fence matched by the regex. -/
def closeTok : List Char := "\n```".data

/-- Matches a literal token at the head of the input, returning the rest. -/
def stripLit : List Char → List Char → Option (List Char)
  | [], rest => some rest
  | _ :: _, [] => none
  | p :: ps, c :: cs => if c = p then stripLit ps cs else none

/-- Lazy capture: the shortest run of characters up to the closing fence. -/
def grabCapture : List Char → Option (List Char)
  | [] => none
  | c :: rest =>
    match stripLit closeTok (c :: rest) with
    | some _ => some []
    | none =>
      match grabCapture rest with
      | some cap => some (c :: cap)
      | none => none

/-- Scans for the leftmost position where the opener matches and a closing
fence follows, returning the lazy capture group. -/
def scanFence : List Char → Option (List Char)
  | [] => none
  | c :: rest =>
    match stripLit openTok (c :: rest) with
    | some afterOpen =>
      match grabCapture afterOpen with
      | some cap => some cap
      | none => scanFence rest
    | none => scanFence rest

/-- Capture group of `text.match` with the json-fence regex, or `none` when
the regex does not match. -/
def extractJsonBlock (text : String) : Option String :=
  match scanFence text.data with
  | some cap => some (String.mk cap)
  | none => none

/-- JSON values, as produced by `JSON.parse`. -/
inductive Json where
  | null
  | bool (b : Bool)
  | num (n : Int)
  | str (s : String)
  | arr (elems : List Json)
  | obj (fields : List (String × Json))

/-- Property read on a parsed JSON object (last duplicate wins is irrelevant
here since the claims fix the field explicitly; first binding is returned). -/
def objGet : List (String × Json) → String → Option Json
  | [], _ => none
  | (k, v) :: rest, key => if k = key then some v else objGet rest key

/-- JavaScript truthiness of a JSON value. -/
def jsTruthy : Json → Bool
  | Json.null => false
  | Json.bool b => b
  | Json.num n => n ≠ 0
  | Json.str s => s ≠ ""
  | Json.arr _ => true
  | Json.obj _ => true

/-- Evaluation of `resultJson.jobs || []`.  Property access on `null` throws
a TypeError (modelled as `none`); on any non-object it yields `undefined`,
so the `|| []` default applies; on an object a falsy `jobs` value is also
replaced by the empty array. -/
def jobsOrEmpty : Json → Option Json
  | Json.null => none
  | Json.obj fields =>
    some (match objGet fields "jobs" with
          | some v => if jsTruthy v then v else Json.arr []
          | none => Json.arr [])
  | _ => some (Json.arr [])

/-- Outcome of the response-parsing portion of `handleFindJobs` /
`handleFindMoreJobs`: the jobs value on success, or which throw occurred. -/
inductive ParseOutcome where
  | ok (jobsValue : Json)
  | noValidJobList
  | jsonSyntaxError
  | nullJobsAccess

/-- Parsing portion of `handleFindJobs` (identical in `handleFindMoreJobs`):
extract the fenced block, fail with the "AI response did not contain a valid
JSON job list." error when the match fails or the capture is falsy (the
empty string), then JSON-parse the capture and take `resultJson.jobs || []`.
The JavaScript `JSON.parse` built-in is a parameter: `none` models a thrown
SyntaxError. -/
def handleFindJobsParse (parse : String → Option Json) (text : String) :
    ParseOutcome :=
  match extractJsonBlock text with
  | none => ParseOutcome.noValidJobList
  | some cap =>
    if cap = "" then ParseOutcome.noValidJobList
    else
      match parse cap with
      | none => ParseOutcome.jsonSyntaxError
      | some j =>
        match jobsOrEmpty j with
        | none => ParseOutcome.nullJobsAccess
        | some v => ParseOutcome.ok v

/-- Accumulation step of `handleFindMoreJobs`: when the newly parsed list is
non-empty the state becomes the old jobs followed by the new ones; an empty
new list leaves the state untouched.  No deduplication happens. -/
def handleFindMoreJobsMerge (prev newJobs : List Job) : List Job :=
  if 0 < newJobs.length then prev ++ newJobs else prev

theorem stripLit_some {pat : List Char} : ∀ {l rest : List Char},
    stripLit pat l = some rest → l = pat ++ rest := by
  induction pat with
  | nil => intro l rest h; simpa [stripLit] using h
  | cons p ps ih =>
    intro l rest h
    match l with
    | [] => simp [stripLit] at h
    | c :: cs =>
      by_cases hc : c = p
      · subst hc
        simp only [stripLit, if_pos rfl] at h
        simpa using ih h
      · simp [stripLit, hc] at h

theorem stripLit_self (pat rest : List Char) :
    stripLit pat (pat ++ rest) = some rest := by
  induction pat with
  | nil => simp [stripLit]
  | cons p ps ih => simp [stripLit, ih]

theorem grabCapture_some : ∀ {l cap : List Char},
    grabCapture l = some cap → l = cap ++ closeTok ++ (l.drop (cap.length + closeTok.length)) := by
  intro l
  induction l with
  | nil => intro cap h; simp [grabCapture] at h
  | cons c rest ih =>
    intro cap h
    simp only [grabCapture] at h
    cases hs : stripLit closeTok (c :: rest) with
    | some after =>
      rw [hs] at h
      simp only [Option.some.injEq] at h
      subst h
      have := stripLit_some hs
      simp only [List.nil_append, List.length_nil, Nat.zero_add]
      rw [this]
      simp [List.drop_append]
    | none =>
      rw [hs] at h
      cases hg : grabCapture rest with
      | some cap2 =>
        rw [hg] at h
        simp only [Option.some.injEq] at h
        subst h
        have hrec := ih hg
        simp only [List.cons_append, List.length_cons]
        have harr : cap2.length + 1 + closeTok.length = cap2.length + closeTok.length + 1 := by
          omega
        rw [harr, List.drop_succ_cons]
        exact congrArg (c :: ·) hrec
      | none => rw [hg] at h; simp at h

/-- Existence form of the previous lemma. -/
theorem grabCapture_decomp {l cap : List Char} (h : grabCapture l = some cap) :
    ∃ post, l = cap ++ closeTok ++ post :=
  ⟨l.drop (cap.length + closeTok.length), grabCapture_some h⟩

/-- A successful capture means a close token occurs after the start. -/
theorem grabCapture_of_close : ∀ (pre post : List Char),
    ∃ cap, grabCapture (pre ++ closeTok ++ post) = some cap := by
  intro pre
  induction pre with
  | nil =>
    intro post
    refine ⟨[], ?_⟩
    have h1 : ([] ++ closeTok ++ post) = '\n' :: ("```".data ++ post) := by
      simp [closeTok]
    rw [h1]
    have h2 : stripLit closeTok ('\n' :: ("```".data ++ post)) = some post := by
      have : ('\n' :: ("```".data ++ post)) = closeTok ++ post := by simp [closeTok]
      rw [this]
      exact stripLit_self _ _
    simp only [grabCapture]
    rw [h2]
  | cons c cs ih =>
    intro post
    obtain ⟨cap, hcap⟩ := ih post
    rw [List.cons_append, List.cons_append]
    cases hs : stripLit closeTok (c :: (cs ++ closeTok ++ post)) with
    | some after =>
      refine ⟨[], ?_⟩
      simp only [grabCapture]
      rw [hs]
    | none =>
      refine ⟨c :: cap, ?_⟩
      simp only [grabCapture]
      rw [hs, hcap]

/-- Soundness of the fence scanner: a successful capture exhibits an opener
and a later closer around it in the text. -/
theorem scanFence_decomp : ∀ {l cap : List Char}, scanFence l = some cap →
    ∃ pre post, l = pre ++ openTok ++ cap ++ closeTok ++ post := by
  intro l
  induction l with
  | nil => intro cap h; simp [scanFence] at h
  | cons c rest ih =>
    intro cap h
    cases hs : stripLit openTok (c :: rest) with
    | some after =>
      simp only [scanFence, hs] at h
      cases hg : grabCapture after with
      | some cap0 =>
        simp only [hg, Option.some.injEq] at h
        subst h
        obtain ⟨post, hpost⟩ := grabCapture_decomp hg
        refine ⟨[], post, ?_⟩
        have hopen := stripLit_some hs
        rw [hopen, hpost]
        simp [List.append_assoc]
      | none =>
        simp only [hg] at h
        obtain ⟨pre, post, hp⟩ := ih h
        exact ⟨c :: pre, post, by simp [hp, List.append_assoc]⟩
    | none =>
      simp only [scanFence, hs] at h
      obtain ⟨pre, post, hp⟩ := ih h
      exact ⟨c :: pre, post, by simp [hp, List.append_assoc]⟩

/-- Completeness of the fence scanner, right-nested form: whenever an opener
is followed by a closer somewhere in the text, the regex matches. -/
theorem scanFence_of_decompR : ∀ (pre mid post : List Char),
    ∃ cap, scanFence (pre ++ (openTok ++ (mid ++ (closeTok ++ post)))) = some cap := by
  intro pre
  induction pre with
  | nil =>
    intro mid post
    cases hO : openTok with
    | nil => exact absurd hO (by decide)
    | cons oc orest =>
      simp only [List.nil_append, List.cons_append]
      have h1 : stripLit openTok (oc :: (orest ++ (mid ++ (closeTok ++ post)))) =
          some (mid ++ (closeTok ++ post)) := by
        have h2 : oc :: (orest ++ (mid ++ (closeTok ++ post))) =
            openTok ++ (mid ++ (closeTok ++ post)) := by rw [hO]; rfl
        rw [h2]; exact stripLit_self _ _
      obtain ⟨cap, hcap⟩ := grabCapture_of_close mid post
      have hcap2 : grabCapture (mid ++ (closeTok ++ post)) = some cap := by
        rw [← List.append_assoc]; exact hcap
      exact ⟨cap, by simp [scanFence, h1, hcap2]⟩
  | cons c cs ih =>
    intro mid post
    obtain ⟨cap0, ih0⟩ := ih mid post
    simp only [List.cons_append]
    cases hs : stripLit openTok (c :: (cs ++ (openTok ++ (mid ++ (closeTok ++ post))))) with
    | some after =>
      have htot := stripLit_some hs
      have hA : c :: (cs ++ (openTok ++ (mid ++ (closeTok ++ post)))) =
          (c :: (cs ++ (openTok ++ mid))) ++ (closeTok ++ post) := by
        simp [List.append_assoc]
      have hlen : openTok.length ≤ (c :: (cs ++ (openTok ++ mid))).length := by
        simp only [List.length_cons, List.length_append]
        omega
      have hafter : after =
          ((c :: (cs ++ (openTok ++ mid))).drop openTok.length) ++ (closeTok ++ post) := by
        have h2 : after = (openTok ++ after).drop openTok.length := by
          rw [List.drop_left]
        rw [h2, ← htot, hA, List.drop_append_of_le_length hlen]
      obtain ⟨cap, hcap⟩ :=
        grabCapture_of_close ((c :: (cs ++ (openTok ++ mid))).drop openTok.length) post
      have hcap2 : grabCapture after = some cap := by
        rw [hafter, ← List.append_assoc]; exact hcap
      exact ⟨cap, by simp [scanFence, hs, hcap2]⟩
    | none =>
      refine ⟨cap0, ?_⟩
      simp only [scanFence, hs]
      exact ih0

/-- Completeness of the fence scanner in the default association. -/
theorem scanFence_of_decomp (pre mid post : List Char) :
    ∃ cap, scanFence (pre ++ openTok ++ mid ++ closeTok ++ post) = some cap := by
  have h := scanFence_of_decompR pre mid post
  simpa [List.append_assoc] using h

/-! State operations: saved-jobs toggle and like/dislike feedback. -/

/-- List update of `toggleSaveJob`: if some saved job shares the applyLink,
filter out every job with that applyLink, otherwise append the job. -/
def toggleSaveJob (savedJobs : List Job) (jobToToggle : Job) : List Job :=
  if savedJobs.any (fun job => decide (job.applyLink = jobToToggle.applyLink)) then
    savedJobs.filter (fun job => decide (¬ job.applyLink = jobToToggle.applyLink))
  else
    savedJobs ++ [jobToToggle]

/-- Map update of `handleJobFeedback`: a reaction equal to the stored one
deletes the key, any other situation stores the new reaction. -/
def handleJobFeedback (prev : List (String × Reaction)) (applyLink : String)
    (newFeedback : Reaction) : List (String × Reaction) :=
  if mapGet prev applyLink = some newFeedback then
    mapDel prev applyLink
  else
    mapSet prev applyLink newFeedback

/-! Prompt builder (`generateJobSearchPrompt`) and its helpers. -/

/-- Map of liked jobs built by the prompt builder: jobs of the current list
whose feedback is a like, overlaid (via `Map.set`) by every saved job. -/
def buildLikedJobs (currentJobs : List Job) (feedback : List (String × Reaction))
    (saved : List Job) : List (String × Job) :=
  let fromFeedback := currentJobs.foldl
    (fun m job =>
      if mapGet feedback job.applyLink = some Reaction.like then
        mapSet m job.applyLink job
      else m)
    []
  saved.foldl (fun m job => mapSet m job.applyLink job) fromFeedback

/-- Disliked list of the prompt builder: current jobs whose feedback is a
dislike. -/
def dislikedJobsOf (currentJobs : List Job) (feedback : List (String × Reaction)) :
    List Job :=
  currentJobs.filter (fun job => decide (mapGet feedback job.applyLink = some Reaction.dislike))

/-- Decimal digit character. -/
def digitChar (n : Nat) : Char := Char.ofNat (48 + n)

/-- Decimal digits of a natural number, least significant first, with fuel. -/
def natDigitsRev : Nat → Nat → List Char
  | 0, _ => []
  | fuel + 1, n => if n < 10 then [digitChar n] else digitChar (n % 10) :: natDigitsRev fuel (n / 10)

/-- Groups of two characters, used for the Indian digit grouping. -/
def chunkTwo : List Char → List (List Char)
  | [] => []
  | [a] => [[a]]
  | a :: b :: rest => [a, b] :: chunkTwo rest

/-- Rendering of the en-IN locale number format for a natural number:
the last three digits form one group and the remaining digits are grouped in
pairs, separated by commas. -/
def toLocaleEnIN (n : Nat) : String :=
  let revDigits := natDigitsRev (n + 1) n
  String.mk (List.reverse (List.intercalate [','] (revDigits.take 3 :: chunkTwo (revDigits.drop 3))))

/-- Value of a decimal digit character. -/
def digitVal (c : Char) : Option Nat :=
  if 48 ≤ c.toNat ∧ c.toNat ≤ 57 then some (c.toNat - 48) else none

/-- Left-to-right accumulation of a decimal numeral. -/
def parseNatAux : List Char → Nat → Option Nat
  | [], acc => some acc
  | c :: cs, acc =>
    match digitVal c with
    | some d => parseNatAux cs (acc * 10 + d)
    | none => none

/-- Parses a non-empty all-digit string as a natural number. -/
def parseNatStr (s : String) : Option Nat :=
  match s.data with
  | [] => none
  | l => parseNatAux l 0

/-- JavaScript en-IN locale rendering of Number(s) on the numeric strings
produced by the salary form fields; a non-numeric string renders as NaN. -/
def jsNumberLocaleEnIN (s : String) : String :=
  match parseNatStr s with
  | some n => toLocaleEnIN n
  | none => "NaN"

/-- JavaScript `s || dflt` on strings: the default replaces the empty string. -/
def orDefault (s dflt : String) : String := if s = "" then dflt else s

/-- Rendered salary bound (`minSal` / `maxSal`): an Indian-Rupee figure for a
non-empty bound, the empty string otherwise. -/
def formatSalaryBound (s : String) : String :=
  if s = "" then "" else "₹" ++ jsNumberLocaleEnIN s

/-- Rendered salary range: the non-empty bounds joined with " - "
(the truthy bounds joined with the separator). -/
def salaryRangeOf (u : UserProfile) : String :=
  String.intercalate " - "
    (([formatSalaryBound u.minSalary, formatSalaryBound u.maxSalary]).filter
      (fun s => decide (¬ s = "")))

/-- Profile section of the prompt (`profilePromptSection`): empty unless at
least one of the five personalization fields is a non-empty string. -/
def mkProfileSection (u : UserProfile) : String :=
  if u.preferredTitles ≠ "" ∨ u.minSalary ≠ "" ∨ u.maxSalary ≠ "" ∨
      u.careerGoals ≠ "" ∨ u.locationPreference ≠ "" then
    "\n            \n            Candidate\x27s Career Profile for Personalization:\n            - Preferred Job Titles: "
      ++ orDefault u.preferredTitles "Not specified"
      ++ "\n            - Preferred Locations: "
      ++ orDefault u.locationPreference "Not specified"
      ++ "\n            - Desired Annual Salary Range (INR): "
      ++ orDefault (salaryRangeOf u) "Not specified"
      ++ "\n            - Career Goals: "
      ++ orDefault u.careerGoals "Not specified"
      ++ "\n\n            Use this profile to further refine the job search. Prioritize roles matching the preferred titles and locations. Consider the salary range and career goals when evaluating relevance.\n            "
  else ""

/-- Line rendered for a job in the liked/disliked/already-shown lists. -/
def jobLine (job : Job) : String := "- " ++ job.title ++ " at " ++ job.company

/-- Feedback section of the prompt (`feedbackPromptSection`): a positive
block when the liked map is non-empty, then a negative block when the
disliked list is non-empty. -/
def mkFeedbackSection (currentJobs : List Job) (feedback : List (String × Reaction))
    (saved : List Job) : String :=
  let likedJobs := buildLikedJobs currentJobs feedback saved
  let dislikedJobs := dislikedJobsOf currentJobs feedback
  (if 0 < likedJobs.length then
    "\n            \n            The user has shown POSITIVE interest in these jobs. Find more opportunities with similar titles, skills, and companies:\n            "
      ++ String.intercalate "\n" ((likedJobs.map Prod.snd).map jobLine)
      ++ "\n            "
   else "")
  ++ (if 0 < dislikedJobs.length then
    "\n            \n            The user has shown NEGATIVE interest in these jobs. AVOID suggesting roles with similar titles and descriptions:\n            "
      ++ String.intercalate "\n" (dislikedJobs.map jobLine)
      ++ "\n            "
   else "")

/-- Text of the exclusion instruction heading the already-shown list. -/
def exclusionInstructionText : String :=
  "IMPORTANT: You have already shown the user the following jobs. Provide a list of NEW jobs that are NOT in the list below:\n            "

/-- Already-shown section of the prompt (`existingJobsSection`): present only
when the find-more flag is set and the accumulated result list is non-empty. -/
def mkExistingJobsSection (findMore : Bool) (jobsResult : Option (List Job)) : String :=
  if findMore then
    match jobsResult with
    | some jobs =>
      if 0 < jobs.length then
        "\n            \n            " ++
          (exclusionInstructionText ++
            (String.intercalate "\n" (jobs.map jobLine) ++ "\n            "))
      else ""
    | none => ""
  else ""

/-- Opening sentence of the job-search prompt, identical on first search and
on find-more. -/
def promptRequestHeader : String :=
  "Based on this resume analysis, find 10 relevant and recent job openings in India."

/-- Closing format-contract sentence of the job-search prompt. -/
def promptFormatContract : String :=
  "\n        IMPORTANT: Return a JSON object inside a markdown block (```json ... ```). The JSON object must have one key \"jobs\", an array of objects. Each object must have keys: \"title\", \"company\", \"location\", \"description\" (1-2 sentences), \"applyLink\" (a direct URL to the application page), \"sourceUrl\" (the URL of the page where the job was found), and \"datePosted\" (the estimated posting date in \"YYYY-MM-DD\" format)."

/-- Component state read by `generateJobSearchPrompt` through its closure:
the analysis, the user profile, the two free-text filters and the
accumulated jobs result. -/
structure PromptState where
  analysisResult : Option AnalysisResult
  userProfile : UserProfile
  experienceLevel : String
  preferredCompanies : String
  jobsResult : Option (List Job)
deriving DecidableEq, Repr

/-- Middle of the prompt: everything between the opening sentence and the
already-shown section. -/
def promptMid (analysis : AnalysisResult) (st : PromptState) (currentJobs : List Job)
    (feedback : List (String × Reaction)) (saved : List Job) : String :=
  "\n        Analysis:\n        - Ideal Role: " ++ analysis.role
    ++ "\n        - Key Skills: " ++ String.intercalate ", " (analysis.skills.map Skill.skillName)
    ++ "\n        - Candidate Summary: " ++ analysis.summary
    ++ "\n        \n        Job Search Preferences:\n        - Experience Level: " ++ st.experienceLevel
    ++ "\n        - Preferred Companies: "
    ++ (if st.preferredCompanies.trim = "" then "Any" else st.preferredCompanies.trim)
    ++ "\n        " ++ mkProfileSection st.userProfile
    ++ "\n        " ++ mkFeedbackSection currentJobs feedback saved
    ++ "\n        Prioritize jobs that closely match the specified experience level and ideal role. If preferred companies are listed, heavily weigh results from those companies, but also include other relevant opportunities. Use the key skills and summary for keyword matching."
    ++ "\n        "

/-- The job-search prompt (`generateJobSearchPrompt`): empty without an
analysis, otherwise the fixed template around the profile, feedback and
already-shown sections. -/
def generateJobSearchPrompt (st : PromptState) (findMore : Bool) (currentJobs : List Job)
    (feedback : List (String × Reaction)) (saved : List Job) : String :=
  match st.analysisResult with
  | none => ""
  | some analysis =>
    promptRequestHeader ++
      (promptMid analysis st currentJobs feedback saved ++
        (mkExistingJobsSection findMore st.jobsResult ++ promptFormatContract))

/-! Sample values used to instantiate the theorems below. -/

/-- Sample job value. -/
def sampleJob : Job := Job.mk "Engineer" "Acme" "desc" "Bangalore" "https://x/1" none none

/-- Sample job value matching the worked example of the specification
(title "A", company "X"). -/
def sampleJobAX : Job := Job.mk "A" "X" "d" "l" "https://x/ax" none none

/-- Sample resume analysis. -/
def sampleAnalysis : AnalysisResult :=
  AnalysisResult.mk "Experienced backend engineer" [Skill.mk "Go" 4] "Backend Engineer" 72
    "improve bullet points" "Senior"

/-- Sample component state with one accumulated job. -/
def sampleState : PromptState :=
  PromptState.mk (some sampleAnalysis) defaultUserProfile "Senior" "" (some [sampleJobAX])

/-- Helper for showing that a rendered salary bound is a truthy string. -/
theorem rupee_append_ne_empty (t : String) : ("₹" ++ t) ≠ "" := by
  obtain ⟨d⟩ := t
  intro h
  have h2 := congrArg String.data h
  simp [String.data_append] at h2

/-- theorem C3: a model response with no json fence (no opener followed by a
closer anywhere in the text) makes the job parser fail with the
"did not contain a valid JSON job list" condition — it never produces a
successful (empty or not) job list, whatever `JSON.parse` would do. -/
theorem c3_no_fence_fails (parse : String → Option Json) (text : String)
    (h : ¬ ∃ pre mid post : List Char,
      text.data = pre ++ openTok ++ mid ++ closeTok ++ post) :
    handleFindJobsParse parse text = ParseOutcome.noValidJobList := by
  cases hscan : scanFence text.data with
  | none => simp [handleFindJobsParse, extractJsonBlock, hscan]
  | some cap => exact absurd ⟨_, cap, _, (scanFence_decomp hscan).choose_spec.choose_spec⟩ h

/-- Witness for C3 at the concrete fence-free response "hello". -/
theorem c3_witness :
    (¬ ∃ pre mid post : List Char,
      ("hello" : String).data = pre ++ openTok ++ mid ++ closeTok ++ post) ∧
    handleFindJobsParse (fun _ => none) "hello" = ParseOutcome.noValidJobList := by
  have hno : ¬ ∃ pre mid post : List Char,
      ("hello" : String).data = pre ++ openTok ++ mid ++ closeTok ++ post := by
    rintro ⟨pre, mid, post, hp⟩
    have h1 : ("hello" : String).data.length = 5 := by decide
    rw [hp] at h1
    have h8 : openTok.length = 8 := by decide
    have h4 : closeTok.length = 4 := by decide
    simp only [List.length_append, h8, h4] at h1
    omega
  exact ⟨hno, c3_no_fence_fails (fun _ => none) "hello" hno⟩

/-- theorem C10: when the regex does match but the capture group is the empty
string (opener immediately followed by the closer), the falsy-capture check
`!jsonBlockMatch[1]` makes the parser fail with the same "no valid job list"
condition before `JSON.parse` is ever consulted (the result is independent of
the `parse` argument). -/
theorem c10_empty_capture_fails (parse : String → Option Json) (text : String)
    (h : extractJsonBlock text = some "") :
    handleFindJobsParse parse text = ParseOutcome.noValidJobList := by
  simp [handleFindJobsParse, h]

/-- Witness for C10 at the concrete response whose fence encloses nothing. -/
theorem c10_witness :
    extractJsonBlock "```json\n\n```" = some "" ∧
    handleFindJobsParse (fun _ => none) "```json\n\n```" = ParseOutcome.noValidJobList := by
  have h : extractJsonBlock "```json\n\n```" = some "" := by decide
  exact ⟨h, c10_empty_capture_fails (fun _ => none) "```json\n\n```" h⟩

/-- theorem C4: when the fenced capture is non-empty and parses to an object
whose "jobs" field is the empty array — or to an object with no "jobs" field
at all — the parser succeeds with zero jobs (`resultJson.jobs || []`) rather
than erroring. -/
theorem c4_empty_jobs_ok (parse : String → Option Json) (text cap : String)
    (fields : List (String × Json))
    (hcap : extractJsonBlock text = some cap)
    (hne : cap ≠ "")
    (hparse : parse cap = some (Json.obj fields))
    (hjobs : objGet fields "jobs" = some (Json.arr []) ∨ objGet fields "jobs" = none) :
    handleFindJobsParse parse text = ParseOutcome.ok (Json.arr []) := by
  simp only [handleFindJobsParse, hcap, if_neg hne, hparse]
  rcases hjobs with h | h <;> simp [jobsOrEmpty, h, jsTruthy]

/-- Witness for C4 at a fenced empty jobs object. -/
theorem c4_witness :
    extractJsonBlock "```json\n\x7b\x22jobs\x22:[]\x7d\n```" = some "\x7b\x22jobs\x22:[]\x7d" ∧
    ("\x7b\x22jobs\x22:[]\x7d" : String) ≠ "" ∧
    handleFindJobsParse (fun _ => some (Json.obj [("jobs", Json.arr [])]))
      "```json\n\x7b\x22jobs\x22:[]\x7d\n```" = ParseOutcome.ok (Json.arr []) := by
  have hcap : extractJsonBlock "```json\n\x7b\x22jobs\x22:[]\x7d\n```" =
      some "\x7b\x22jobs\x22:[]\x7d" := by decide
  refine ⟨hcap, by decide, ?_⟩
  exact c4_empty_jobs_ok (fun _ => some (Json.obj [("jobs", Json.arr [])]))
    "```json\n\x7b\x22jobs\x22:[]\x7d\n```" "\x7b\x22jobs\x22:[]\x7d"
    [("jobs", Json.arr [])] hcap (by decide) rfl (Or.inl rfl)

/-- theorem C7: the find-more accumulation appends the newly parsed jobs
after the existing ones (the old list is a prefix, order preserved) without
any deduplication: repeating a job yields duplicate applyLinks. -/
theorem c7_merge_appends_without_dedup :
    (∀ prev newJobs : List Job, handleFindMoreJobsMerge prev newJobs = prev ++ newJobs)
    ∧ ¬ ((handleFindMoreJobsMerge [sampleJob] [sampleJob]).map Job.applyLink).Nodup := by
  constructor
  · intro prev newJobs
    cases newJobs with
    | nil => simp [handleFindMoreJobsMerge]
    | cons j rest => simp [handleFindMoreJobsMerge]
  · decide

/-- Counterexample to C9 as stated: on a feedback map that already stores
the very reaction being applied, applying that same reaction twice in a row
first clears the key and then stores it again, so the key is present (not
removed) afterwards. -/
theorem c9_counterexample :
    ¬ (mapGet (handleJobFeedback
        (handleJobFeedback [("https://x/1", Reaction.like)] "https://x/1" Reaction.like)
        "https://x/1" Reaction.like) "https://x/1" = none) := by
  decide

/-- theorem C9 (amended): on a duplicate-free feedback map, applying the same
reaction twice in a row to a key that does not already store that reaction
removes the key; applying a reaction over a different stored one replaces it;
other keys are untouched; and the keys stay duplicate-free, so a key never
holds two reactions. -/
theorem c9_feedback_toggle (prev : List (String × Reaction)) (k : String) (fb : Reaction)
    (hnd : (prev.map Prod.fst).Nodup) :
    ((mapGet prev k ≠ some fb) →
      mapGet (handleJobFeedback (handleJobFeedback prev k fb) k fb) k = none)
    ∧ (∀ other : Reaction, mapGet prev k = some other → other ≠ fb →
        mapGet (handleJobFeedback prev k fb) k = some fb)
    ∧ (∀ k' : String, k' ≠ k →
        mapGet (handleJobFeedback prev k fb) k' = mapGet prev k')
    ∧ ((handleJobFeedback prev k fb).map Prod.fst).Nodup := by
  refine ⟨?_, ?_, ?_, ?_⟩
  · intro h
    have hinner : handleJobFeedback prev k fb = mapSet prev k fb := by
      rw [handleJobFeedback, if_neg h]
    rw [hinner]
    have h1 : mapGet (mapSet prev k fb) k = some fb := mapGet_mapSet_self prev k fb
    rw [handleJobFeedback, if_pos h1]
    exact mapGet_mapDel_self _ _ (keys_mapSet_nodup prev k fb hnd)
  · intro other hother hne
    have h : mapGet prev k ≠ some fb := by
      rw [hother]
      intro hcon
      exact hne (Option.some.inj hcon)
    rw [handleJobFeedback, if_neg h]
    exact mapGet_mapSet_self prev k fb
  · intro k' hk'
    by_cases hif : mapGet prev k = some fb
    · rw [handleJobFeedback, if_pos hif]
      exact mapGet_mapDel_ne prev k k' hk'
    · rw [handleJobFeedback, if_neg hif]
      exact mapGet_mapSet_ne prev k k' fb hk'
  · by_cases hif : mapGet prev k = some fb
    · rw [handleJobFeedback, if_pos hif]
      exact keys_mapDel_nodup prev k hnd
    · rw [handleJobFeedback, if_neg hif]
      exact keys_mapSet_nodup prev k fb hnd

/-- Witness for the amended C9 on a concrete map storing a dislike. -/
theorem c9_witness :
    (([("a", Reaction.dislike)].map
        (Prod.fst : String × Reaction → String)).Nodup) ∧
    mapGet (handleJobFeedback
      (handleJobFeedback [("a", Reaction.dislike)] "a" Reaction.like)
      "a" Reaction.like) "a" = none ∧
    mapGet (handleJobFeedback [("a", Reaction.dislike)] "a" Reaction.like) "a" =
      some Reaction.like ∧
    mapGet (handleJobFeedback [("a", Reaction.dislike)] "a" Reaction.like) "b" =
      mapGet [("a", Reaction.dislike)] "b" := by
  have h := c9_feedback_toggle [("a", Reaction.dislike)] "a" Reaction.like (by decide)
  exact ⟨by decide, h.1 (by decide), h.2.1 Reaction.dislike rfl (by decide),
    h.2.2.1 "b" (by decide)⟩

/-- On a list with duplicate-free applyLinks containing a match, filtering
the matching applyLink out removes exactly one element. -/
theorem filter_ne_length (saved : List Job) (link : String)
    (hnd : (saved.map Job.applyLink).Nodup)
    (hmem : ∃ j, j ∈ saved ∧ j.applyLink = link) :
    (saved.filter (fun j => decide (¬ j.applyLink = link))).length + 1 = saved.length := by
  induction saved with
  | nil => obtain ⟨j, hj, _⟩ := hmem; simp at hj
  | cons j0 rest ih =>
    simp only [List.map_cons, List.nodup_cons] at hnd
    by_cases h0 : j0.applyLink = link
    · have hrest : rest.filter (fun j => decide (¬ j.applyLink = link)) = rest := by
        apply List.filter_eq_self.2
        intro j hj
        simp only [decide_eq_true_eq]
        intro hcon
        apply hnd.1
        rw [h0, ← hcon]
        exact List.mem_map_of_mem Job.applyLink hj
      have hfilter : (j0 :: rest).filter (fun j => decide (¬ j.applyLink = link)) = rest := by
        rw [List.filter_cons]
        have hj0 : (decide (¬ j0.applyLink = link)) = false := by simp [h0]
        rw [hj0]
        simpa using hrest
      rw [hfilter]
      simp
    · have hmem2 : ∃ j, j ∈ rest ∧ j.applyLink = link := by
        obtain ⟨j, hj, hjl⟩ := hmem
        rcases List.mem_cons.1 hj with rfl | hj2
        · exact absurd hjl h0
        · exact ⟨j, hj2, hjl⟩
      have hih := ih hnd.2 hmem2
      have hfilter : (j0 :: rest).filter (fun j => decide (¬ j.applyLink = link)) =
          j0 :: rest.filter (fun j => decide (¬ j.applyLink = link)) := by
        rw [List.filter_cons]
        have hj0 : (decide (¬ j0.applyLink = link)) = true := by simp [h0]
        rw [hj0]
        simp
      rw [hfilter]
      simp only [List.length_cons]
      omega

/-- theorem C8: on a saved-jobs list with duplicate-free applyLinks, the
toggle removes exactly one entry — the one with the toggled applyLink — when
one is present, appends exactly the toggled job when none is, and keeps the
applyLinks duplicate-free. -/
theorem c8_toggle_save_job (savedJobs : List Job) (job : Job)
    (hnd : (savedJobs.map Job.applyLink).Nodup) :
    ((∃ j, j ∈ savedJobs ∧ j.applyLink = job.applyLink) →
      (toggleSaveJob savedJobs job).length + 1 = savedJobs.length ∧
      (∀ j, j ∈ toggleSaveJob savedJobs job ↔
        (j ∈ savedJobs ∧ ¬ j.applyLink = job.applyLink)))
    ∧ ((¬ ∃ j, j ∈ savedJobs ∧ j.applyLink = job.applyLink) →
        toggleSaveJob savedJobs job = savedJobs ++ [job])
    ∧ ((toggleSaveJob savedJobs job).map Job.applyLink).Nodup := by
  by_cases hpres : ∃ j, j ∈ savedJobs ∧ j.applyLink = job.applyLink
  · have hany : savedJobs.any (fun j => decide (j.applyLink = job.applyLink)) = true := by
      obtain ⟨j, hj, hjl⟩ := hpres
      exact List.any_eq_true.2 ⟨j, hj, by simp [hjl]⟩
    have htog : toggleSaveJob savedJobs job =
        savedJobs.filter (fun j => decide (¬ j.applyLink = job.applyLink)) := by
      rw [toggleSaveJob, if_pos hany]
    refine ⟨fun _ => ⟨?_, ?_⟩, fun hcon => absurd hpres hcon, ?_⟩
    · rw [htog]
      exact filter_ne_length savedJobs job.applyLink hnd hpres
    · intro j
      rw [htog]
      simp [List.mem_filter]
    · rw [htog]
      exact List.Nodup.sublist (List.Sublist.map _ (List.filter_sublist _)) hnd
  · have hany : savedJobs.any (fun j => decide (j.applyLink = job.applyLink)) = false := by
      rw [← Bool.not_eq_true, List.any_eq_true]
      rintro ⟨j, hj, hjl⟩
      exact hpres ⟨j, hj, by simpa using hjl⟩
    have htog : toggleSaveJob savedJobs job = savedJobs ++ [job] := by
      rw [toggleSaveJob]
      simp [hany]
    refine ⟨fun hcon => absurd hcon hpres, fun _ => htog, ?_⟩
    rw [htog]
    rw [List.map_append, List.nodup_append]
    refine ⟨hnd, by simp, ?_⟩
    intro x hx
    simp only [List.map_cons, List.map_nil, List.mem_singleton]
    intro hxj
    obtain ⟨j, hj, hjl⟩ := List.mem_map.1 hx
    exact hpres ⟨j, hj, by rw [hjl, hxj]⟩

/-- Witness for C8: removing a present job and adding an absent one. -/
theorem c8_witness :
    (([sampleJob].map Job.applyLink).Nodup) ∧
    (toggleSaveJob [sampleJob] sampleJob).length + 1 = 1 ∧
    toggleSaveJob [] sampleJob = [] ++ [sampleJob] := by
  have h1 := c8_toggle_save_job [sampleJob] sampleJob (by decide)
  have h2 := c8_toggle_save_job [] sampleJob (by decide)
  exact ⟨by decide, (h1.1 ⟨sampleJob, by decide, rfl⟩).1,
    h2.2.1 (by rintro ⟨j, hj, _⟩; simp at hj)⟩

theorem mapGet_isSome_mapSet {α : Type} (m : List (String × α)) (k k' : String) (v : α) :
    (mapGet (mapSet m k v) k').isSome = true ↔
      (k' = k ∨ (mapGet m k').isSome = true) := by
  by_cases h : k' = k
  · subst h
    simp [mapGet_mapSet_self]
  · rw [mapGet_mapSet_ne m k k' v h]
    simp [h]

/-- Key membership after overlaying every saved job onto an accumulator. -/
theorem savedFold_isSome (saved : List Job) : ∀ (m : List (String × Job)) (k : String),
    (mapGet (saved.foldl (fun m job => mapSet m job.applyLink job) m) k).isSome = true ↔
    ((mapGet m k).isSome = true ∨ ∃ j, j ∈ saved ∧ j.applyLink = k) := by
  induction saved with
  | nil => intro m k; simp
  | cons j0 rest ih =>
    intro m k
    simp only [List.foldl_cons]
    rw [ih (mapSet m j0.applyLink j0) k, mapGet_isSome_mapSet]
    constructor
    · rintro ((h | h) | ⟨j, hj, hjk⟩)
      · exact Or.inr ⟨j0, List.mem_cons_self j0 rest, h.symm⟩
      · exact Or.inl h
      · exact Or.inr ⟨j, List.mem_cons_of_mem j0 hj, hjk⟩
    · rintro (h | ⟨j, hj, hjk⟩)
      · exact Or.inl (Or.inr h)
      · rcases List.mem_cons.1 hj with rfl | hj2
        · exact Or.inl (Or.inl hjk.symm)
        · exact Or.inr ⟨j, hj2, hjk⟩

/-- Key membership of the map built from the like-feedback pass. -/
theorem feedbackFold_isSome (currentJobs : List Job)
    (feedback : List (String × Reaction)) : ∀ (m : List (String × Job)) (k : String),
    (mapGet (currentJobs.foldl
      (fun m job =>
        if mapGet feedback job.applyLink = some Reaction.like then
          mapSet m job.applyLink job
        else m) m) k).isSome = true ↔
    ((mapGet m k).isSome = true ∨
      ∃ j, j ∈ currentJobs ∧ j.applyLink = k ∧ mapGet feedback k = some Reaction.like) := by
  induction currentJobs with
  | nil => intro m k; simp
  | cons j0 rest ih =>
    intro m k
    simp only [List.foldl_cons]
    by_cases hfb : mapGet feedback j0.applyLink = some Reaction.like
    · rw [if_pos hfb, ih (mapSet m j0.applyLink j0) k, mapGet_isSome_mapSet]
      constructor
      · rintro ((h | h) | ⟨j, hj, hjk, hlk⟩)
        · exact Or.inr ⟨j0, List.mem_cons_self j0 rest, h.symm, by rwa [h]⟩
        · exact Or.inl h
        · exact Or.inr ⟨j, List.mem_cons_of_mem j0 hj, hjk, hlk⟩
      · rintro (h | ⟨j, hj, hjk, hlk⟩)
        · exact Or.inl (Or.inr h)
        · rcases List.mem_cons.1 hj with rfl | hj2
          · exact Or.inl (Or.inl hjk.symm)
          · exact Or.inr ⟨j, hj2, hjk, hlk⟩
    · rw [if_neg hfb, ih m k]
      constructor
      · rintro (h | ⟨j, hj, hjk, hlk⟩)
        · exact Or.inl h
        · exact Or.inr ⟨j, List.mem_cons_of_mem j0 hj, hjk, hlk⟩
      · rintro (h | ⟨j, hj, hjk, hlk⟩)
        · exact Or.inl h
        · rcases List.mem_cons.1 hj with rfl | hj2
          · exact absurd (by rwa [hjk]) hfb
          · exact Or.inr ⟨j, hj2, hjk, hlk⟩

/-- theorem C1: the liked map of the prompt builder contains exactly the
applyLinks of feedback-liked current jobs and of all saved jobs (saved jobs
overlaid last), so a job that is disliked but independently saved still lands
in the liked set while simultaneously sitting in the disliked list. -/
theorem c1_liked_set (currentJobs : List Job) (feedback : List (String × Reaction))
    (saved : List Job) :
    (∀ k : String,
      (mapGet (buildLikedJobs currentJobs feedback saved) k).isSome = true ↔
        ((∃ j, j ∈ currentJobs ∧ j.applyLink = k ∧
            mapGet feedback k = some Reaction.like) ∨
          ∃ j, j ∈ saved ∧ j.applyLink = k))
    ∧ (∀ job, job ∈ currentJobs →
        mapGet feedback job.applyLink = some Reaction.dislike →
        (∃ s, s ∈ saved ∧ s.applyLink = job.applyLink) →
        ((mapGet (buildLikedJobs currentJobs feedback saved) job.applyLink).isSome = true ∧
          job ∈ dislikedJobsOf currentJobs feedback)) := by
  have hpart1 : ∀ k : String,
      (mapGet (buildLikedJobs currentJobs feedback saved) k).isSome = true ↔
        ((∃ j, j ∈ currentJobs ∧ j.applyLink = k ∧
            mapGet feedback k = some Reaction.like) ∨
          ∃ j, j ∈ saved ∧ j.applyLink = k) := by
    intro k
    unfold buildLikedJobs
    rw [savedFold_isSome, feedbackFold_isSome]
    simp [mapGet]
  refine ⟨hpart1, ?_⟩
  intro job hmem hdis hsav
  refine ⟨(hpart1 job.applyLink).2 (Or.inr hsav), ?_⟩
  simp [dislikedJobsOf, List.mem_filter, hmem, hdis]

/-- Witness for C1: one current job with dislike feedback that is also saved
appears in both derived collections. -/
theorem c1_witness :
    mapGet [("https://x/1", Reaction.dislike)] sampleJob.applyLink =
      some Reaction.dislike ∧
    (mapGet (buildLikedJobs [sampleJob] [("https://x/1", Reaction.dislike)] [sampleJob])
      sampleJob.applyLink).isSome = true ∧
    sampleJob ∈ dislikedJobsOf [sampleJob] [("https://x/1", Reaction.dislike)] := by
  have h := c1_liked_set [sampleJob] [("https://x/1", Reaction.dislike)] [sampleJob]
  have h2 := h.2 sampleJob (List.mem_cons_self sampleJob [])
    (by decide) ⟨sampleJob, List.mem_cons_self sampleJob [], rfl⟩
  exact ⟨by decide, h2.1, h2.2⟩

/-- Decomposition of the prompt around its fixed pieces when an analysis is
present. -/
theorem prompt_decomp (st : PromptState) (findMore : Bool) (currentJobs : List Job)
    (feedback : List (String × Reaction)) (saved : List Job) (a : AnalysisResult)
    (h : st.analysisResult = some a) :
    generateJobSearchPrompt st findMore currentJobs feedback saved =
      promptRequestHeader ++
        (promptMid a st currentJobs feedback saved ++
          (mkExistingJobsSection findMore st.jobsResult ++ promptFormatContract)) := by
  simp [generateJobSearchPrompt, h]

/-- theorem C2 (amended): every built prompt — first search and find-more
alike — opens with the fixed sentence requesting exactly 10 job openings in
India; the find-more flag never changes the requested count. -/
theorem c2_prompt_requests_ten (st : PromptState) (findMore : Bool)
    (currentJobs : List Job) (feedback : List (String × Reaction)) (saved : List Job)
    (a : AnalysisResult) (h : st.analysisResult = some a) :
    ∃ rest : String,
      generateJobSearchPrompt st findMore currentJobs feedback saved =
        promptRequestHeader ++ rest :=
  ⟨promptMid a st currentJobs feedback saved ++
      (mkExistingJobsSection findMore st.jobsResult ++ promptFormatContract),
    prompt_decomp st findMore currentJobs feedback saved a h⟩

/-- Counterexample to C2 as stated: the prompt built with the find-more flag
set still opens with the very sentence that requests a count of 10 job
openings — it does not request an unbounded count. -/
theorem c2_counterexample :
    (stripLit promptRequestHeader.data
      (generateJobSearchPrompt sampleState true [] [] []).data).isSome = true := by
  rw [prompt_decomp sampleState true [] [] [] sampleAnalysis rfl, String.data_append,
    stripLit_self]
  rfl

/-- Witness for the amended C2 at a concrete state, on both flag values. -/
theorem c2_witness :
    sampleState.analysisResult = some sampleAnalysis ∧
    (∃ rest : String, generateJobSearchPrompt sampleState true [] [] [] =
      promptRequestHeader ++ rest) ∧
    (∃ rest : String, generateJobSearchPrompt sampleState false [] [] [] =
      promptRequestHeader ++ rest) :=
  ⟨rfl, c2_prompt_requests_ten sampleState true [] [] [] sampleAnalysis rfl,
    c2_prompt_requests_ten sampleState false [] [] [] sampleAnalysis rfl⟩

/-- theorem C5: with the find-more flag set and a non-empty accumulated
result list, the prompt embeds — directly under the exclusion instruction —
one "- title at company" line per already-shown job; with the flag unset or
an empty result list the exclusion section is empty and the prompt is the
first-search prompt. -/
theorem c5_exclusion_section (st : PromptState) (a : AnalysisResult) (jr : List Job)
    (currentJobs : List Job) (feedback : List (String × Reaction)) (saved : List Job) :
    (st.analysisResult = some a → st.jobsResult = some jr → jr ≠ [] →
      ∃ pre post : String,
        generateJobSearchPrompt st true currentJobs feedback saved =
          pre ++ exclusionInstructionText ++
            String.intercalate "\n" (jr.map jobLine) ++ post)
    ∧ (∀ findMore : Bool,
        (findMore = false ∨ st.jobsResult.getD [] = []) →
        mkExistingJobsSection findMore st.jobsResult = "" ∧
        generateJobSearchPrompt st findMore currentJobs feedback saved =
          generateJobSearchPrompt st false currentJobs feedback saved) := by
  constructor
  · intro ha hjr hne
    refine ⟨promptRequestHeader ++ promptMid a st currentJobs feedback saved ++
      "\n            \n            ", "\n            " ++ promptFormatContract, ?_⟩
    have hlen : 0 < jr.length := List.length_pos.2 hne
    have hsec : mkExistingJobsSection true st.jobsResult =
        "\n            \n            " ++
          (exclusionInstructionText ++
            (String.intercalate "\n" (jr.map jobLine) ++ "\n            ")) := by
      rw [hjr]
      simp [mkExistingJobsSection, hlen]
    rw [prompt_decomp st true currentJobs feedback saved a ha, hsec]
    simp [String.append_assoc]
  · intro fm h
    have hsec : mkExistingJobsSection fm st.jobsResult = "" := by
      rcases h with rfl | hempty
      · simp [mkExistingJobsSection]
      · cases hjr2 : st.jobsResult with
        | none => cases fm <;> simp [mkExistingJobsSection]
        | some jobs =>
          rw [hjr2] at hempty
          simp only [Option.getD_some] at hempty
          subst hempty
          cases fm <;> simp [mkExistingJobsSection]
    have hsec0 : mkExistingJobsSection false st.jobsResult = "" := by
      simp [mkExistingJobsSection]
    refine ⟨hsec, ?_⟩
    cases han : st.analysisResult with
    | none => simp [generateJobSearchPrompt, han]
    | some a2 =>
      rw [prompt_decomp st fm currentJobs feedback saved a2 han,
        prompt_decomp st false currentJobs feedback saved a2 han, hsec, hsec0]

/-- Witness for C5 at the worked example of the specification: prior job with
title "A" and company "X" renders the line "- A at X" under the exclusion
instruction. -/
theorem c5_witness :
    sampleState.analysisResult = some sampleAnalysis ∧
    sampleState.jobsResult = some [sampleJobAX] ∧
    ([sampleJobAX] : List Job) ≠ [] ∧
    jobLine sampleJobAX = "- A at X" ∧
    (∃ pre post : String,
      generateJobSearchPrompt sampleState true [] [] [] =
        pre ++ exclusionInstructionText ++
          String.intercalate "\n" ([sampleJobAX].map jobLine) ++ post) := by
  have h := (c5_exclusion_section sampleState sampleAnalysis [sampleJobAX] [] [] []).1
    rfl rfl (by decide)
  exact ⟨rfl, rfl, by decide, by decide, h⟩

/-- theorem C6: a profile whose five personalization fields are all empty
contributes no profile section and leaves the prompt identical to one built
with the all-empty default profile; and with a non-empty minimum but empty
maximum salary, the rendered range is exactly the Rupee-formatted minimum —
no separator, no zero for the absent bound. -/
theorem c6_profile_and_salary (u : UserProfile) :
    (u.preferredTitles = "" → u.minSalary = "" → u.maxSalary = "" →
      u.careerGoals = "" → u.locationPreference = "" →
      mkProfileSection u = "" ∧
      (∀ (ar : Option AnalysisResult) (el pc : String) (jr : Option (List Job))
          (findMore : Bool) (currentJobs : List Job)
          (feedback : List (String × Reaction)) (saved : List Job),
        generateJobSearchPrompt (PromptState.mk ar u el pc jr) findMore
            currentJobs feedback saved =
          generateJobSearchPrompt (PromptState.mk ar defaultUserProfile el pc jr)
            findMore currentJobs feedback saved))
    ∧ (u.minSalary ≠ "" → u.maxSalary = "" →
        salaryRangeOf u = "₹" ++ jsNumberLocaleEnIN u.minSalary) := by
  constructor
  · intro h1 h2 h3 h4 h5
    have hsec : mkProfileSection u = "" := by
      simp [mkProfileSection, h1, h2, h3, h4, h5]
    have hsec0 : mkProfileSection defaultUserProfile = "" := by
      simp [mkProfileSection, defaultUserProfile]
    refine ⟨hsec, ?_⟩
    intro ar el pc jr fm c f s
    cases ar with
    | none => simp [generateJobSearchPrompt]
    | some a =>
      rw [prompt_decomp (PromptState.mk (some a) u el pc jr) fm c f s a rfl,
        prompt_decomp (PromptState.mk (some a) defaultUserProfile el pc jr) fm c f s a rfl]
      simp [promptMid, hsec, hsec0]
  · intro hmin hmax
    have hb : formatSalaryBound u.maxSalary = "" := by
      simp [formatSalaryBound, hmax]
    have hm : formatSalaryBound u.minSalary = "₹" ++ jsNumberLocaleEnIN u.minSalary := by
      simp [formatSalaryBound, hmin]
    have hne : ("₹" ++ jsNumberLocaleEnIN u.minSalary) ≠ "" := rupee_append_ne_empty _
    rw [salaryRangeOf, hm, hb]
    simp [List.filter, hne]
    rfl

/-- Witness for C6: the default profile renders no section and
minSalary "50000" with empty maxSalary renders exactly "₹50,000". -/
theorem c6_witness :
    mkProfileSection defaultUserProfile = "" ∧
    salaryRangeOf (UserProfile.mk "" "50000" "" "" "" false AlertFrequency.weekly) =
      "₹" ++ jsNumberLocaleEnIN "50000" ∧
    salaryRangeOf (UserProfile.mk "" "50000" "" "" "" false AlertFrequency.weekly) =
      "₹50,000" := by
  have h1 := (c6_profile_and_salary defaultUserProfile).1 rfl rfl rfl rfl rfl
  have h2 := (c6_profile_and_salary
    (UserProfile.mk "" "50000" "" "" "" false AlertFrequency.weekly)).2 (by decide) rfl
  exact ⟨h1.1, h2, by decide⟩

end Resumate
